import Mathlib

/-!
Verification of the droll dice-notation library (lexer, parser, interpreter)
against its specification.  The Rust sources under `droll/src` are shallowly
embedded below: the character stream is a `List Char`, the mutable `Peekable`
iterators become explicit state passing (each function returns the remaining
stream alongside its result), `Result<_, String>` becomes `Except String _`,
`u64`/`usize` values are naturals (bounded by `2 ^ 64` where the source checks
it), `isize` arithmetic is `Int`, and `f64` values in the interpreter are
rationals (`ℚ`) with the lossy steps made explicit: every `as f64`
conversion and every `f64` multiplication is followed by `fl`, rounding to
nearest with a 53-bit significand and ties to even, and the final `as isize`
cast is the saturating truncation `satCast`.  `f64::round` (half away from
zero) and `f64::max` are exact on every finite `f64` they can receive here
and are embedded directly.  `fl` uses an unbounded exponent: overflow to
infinity and subnormal precision loss are not represented — with operands in
the `i64` range and samples in `[0,1)` no intermediate value can overflow,
no NaN can arise, and a subnormal sample product differs from its `f64`
value by far less than the distance to the nearest half-integer, so the
`round` that consumes it is unaffected.
-/

namespace Droll

/-- Tokens of the lexer (`droll/src/lexer.rs`, `enum Token`).  The payload of
`integer` is a `u64` value; `parseIntegerToken` only builds it when the digit
run fits below `2 ^ 64`. -/
inductive Token where
  | integer (n : Nat)
  | plus
  | minus
  | asterisk
  | slash
  | die
  | fudgeDie
  | percentileDie
  deriving DecidableEq

/-- Debug rendering of a token, mirroring Rust's derived `Debug` formatting
used in the `format!("Unknown operator token {:?}", op)` message. -/
def tokenDebug : Token → String
  | .integer n => "Integer(" ++ toString n ++ ")"
  | .plus => "Plus"
  | .minus => "Minus"
  | .asterisk => "Asterisk"
  | .slash => "Slash"
  | .die => "Die"
  | .fudgeDie => "FudgeDie"
  | .percentileDie => "PercentileDie"

/-- `parse_integer_token` (`lexer.rs`): greedily consume the ASCII-digit run at
the head of the stream and parse it in base 10 as a `u64`; the two error
messages are the `ParseIntError` displays that `parse::<u64>()` can produce
here (empty input, overflow), wrapped by the source's `format!`. -/
def parseIntegerToken (cs : List Char) : Except String (Token × List Char) :=
  let digits := cs.takeWhile (fun c => c.isDigit)
  let rest := cs.dropWhile (fun c => c.isDigit)
  if digits.isEmpty then
    .error "Failed to parse number token: cannot parse integer from empty string"
  else
    let n := digits.foldl (fun acc c => 10 * acc + (c.toNat - 48)) 0
    if n < 2 ^ 64 then .ok (Token.integer n, rest)
    else .error "Failed to parse number token: number too large to fit in target type"

/-- The inner `parse` closure of `parse_die_token` (`lexer.rs`): classify the
character found after a `d`. -/
def dieCharToToken (c : Char) : Except String Token :=
  if c = 'F' then .ok Token.fudgeDie
  else if c = '%' then .ok Token.percentileDie
  else if '1' ≤ c ∧ c ≤ '9' then .ok Token.die
  else .error ("Unexpected character: " ++ c.toString)

/-- `parse_die_token` (`lexer.rs`).  The source chains
`next_if_eq(&'d').and(next_if(F or %)).or(peek()).ok_or(...).and_then(parse)`;
Rust evaluates the receiver and the arguments of `and`/`or` eagerly and in
order, so: a leading `'d'` is consumed; a following `'F'`/`'%'` is consumed
and classified; otherwise the next character is peeked (not consumed) and
classified; an exhausted stream yields the end-of-input error.  The branch in
which the head is not `'d'` (unreachable from `parseTok`, which dispatches
here only on `'d'`) is reproduced faithfully: `next_if_eq` then consumes
nothing, but the eagerly evaluated `next_if` argument still consumes a leading
`'F'`/`'%'`, after which the `or` falls back to peeking. -/
def parseDieToken (cs : List Char) : Except String (Token × List Char) :=
  match cs with
  | [] => .error "Unexpected end of input stream"
  | c0 :: rest =>
    if c0 = 'd' then
      match rest with
      | [] => .error "Unexpected end of input stream"
      | c1 :: r2 =>
        if c1 = 'F' ∨ c1 = '%' then (dieCharToToken c1).map (fun t => (t, r2))
        else (dieCharToToken c1).map (fun t => (t, c1 :: r2))
    else
      if c0 = 'F' ∨ c0 = '%' then
        match rest with
        | [] => .error "Unexpected end of input stream"
        | c1 :: _ => (dieCharToToken c1).map (fun t => (t, rest))
      else (dieCharToToken c0).map (fun t => (t, c0 :: rest))

/-- `parse_single_token` (`lexer.rs`): classify a single character and, on
success only, consume it (`chars.next()` runs inside the `and_then`). -/
def parseSingleToken (c : Char) (cs : List Char) : Except String (Token × List Char) :=
  (if c = '+' then Except.ok Token.plus
   else if c = '-' then Except.ok Token.minus
   else if c = '*' then Except.ok Token.asterisk
   else if c = '/' then Except.ok Token.slash
   else Except.error ("Unexpected character: " ++ c.toString)).map
    (fun t => (t, cs.tail))

/-- The dispatching `parse` of `lexer.rs`: `c` is the peeked head of `cs`. -/
def parseTok (c : Char) (cs : List Char) : Except String (Token × List Char) :=
  if '1' ≤ c ∧ c ≤ '9' then parseIntegerToken cs
  else if c = 'd' then parseDieToken cs
  else parseSingleToken c cs

/-- The `while let Some(&char) = chars.peek()` loop of `lex` (`lexer.rs`),
with an explicit fuel argument to make the recursion structural.  Every
successful `parseTok` step invoked by the loop consumes at least one
character, so the fuel chosen by `lex` below is never exhausted. -/
def lexLoop : Nat → List Char → Except String (List Token)
  | _, [] => .ok []
  | 0, _ :: _ => .error "lexer fuel exhausted"
  | fuel + 1, c :: cs =>
    match parseTok c (c :: cs) with
    | .error e => .error e
    | .ok (t, rest) =>
      match lexLoop fuel rest with
      | .error e => .error e
      | .ok ts => .ok (t :: ts)

/-- `lex` (`lexer.rs`): tokenize a whole input string. -/
def lex (s : String) : Except String (List Token) :=
  lexLoop (s.toList.length + 1) s.toList

/-- Operators of the parse tree (`droll/src/ast.rs`, `enum Operator`). -/
inductive Operator where
  | die
  | plus
  | minus
  deriving DecidableEq

/-- Expressions of the parse tree (`droll/src/ast.rs`, `enum Expr`).  The
`Box` indirections of the Rust type are ordinary recursive occurrences; the
`usize` literal payload is a natural number. -/
inductive Expr where
  | binary (lhs rhs : Expr) (op : Operator)
  | unary (rhs : Expr) (op : Operator)
  | numericLiteral (n : Nat)
  deriving DecidableEq

/-- `MAX_PRECEDENCE` (`droll/src/parser.rs`). -/
def MAX_PRECEDENCE : Nat := 2

/-- `token_precedence` (`parser.rs`). -/
def tokenPrecedence : Token → Nat
  | .plus => 0
  | .minus => 0
  | .die => 1
  | _ => MAX_PRECEDENCE

/-- `token_to_operator` (`parser.rs`). -/
def tokenToOperator : Token → Except String Operator
  | .plus => .ok Operator.plus
  | .minus => .ok Operator.minus
  | .die => .ok Operator.die
  | t => .error ("Unknown operator token " ++ tokenDebug t)

mutual

/-- `parse_expr` (`parser.rs`), with a fuel argument making the mutual
recursion structural; `parse` below supplies fuel ample for the recursion
depth, which is bounded because each nesting level beyond the four precedence
descents consumes a token.  On success the remaining token stream is returned
alongside the expression (the source mutates the `Peekable` iterator in
place).  The source evaluates the right-hand side before converting the
operator token (Rust argument order), so a right-hand-side error wins over an
unknown-operator error; the embedding binds in the same order. -/
def parseExprF : Nat → List Token → Nat → Except String (Expr × List Token)
  | 0, _, _ => .error "parser fuel exhausted"
  | fuel + 1, tokens, currentPrecedence =>
    if currentPrecedence > MAX_PRECEDENCE then
      parsePrimaryF fuel tokens
    else
      match parseExprF fuel tokens (currentPrecedence + 1) with
      | .error e => .error e
      | .ok (left, ts1) =>
        match ts1 with
        | [] => .ok (left, ts1)
        | nextToken :: rest =>
          if tokenPrecedence nextToken = currentPrecedence then
            match parseExprF fuel rest currentPrecedence with
            | .error e => .error e
            | .ok (right, ts2) =>
              match tokenToOperator nextToken with
              | .error e => .error e
              | .ok op => .ok (Expr.binary left right op, ts2)
          else .ok (left, ts1)

/-- `parse_primary` (`parser.rs`).  The source's first arm matches
`lexer::Token::Number(n)`, the integer-carrying variant (named `Integer` in
`lexer.rs`); it is the same variant here.  The final catch-all arm of the
source returns "Unexpected end of input" both for an exhausted stream and for
any other token in primary position. -/
def parsePrimaryF : Nat → List Token → Except String (Expr × List Token)
  | 0, _ => .error "parser fuel exhausted"
  | fuel + 1, tokens =>
    match tokens with
    | Token.integer n :: rest => .ok (Expr.numericLiteral n, rest)
    | Token.die :: rest =>
      match rest with
      | Token.die :: _ => .error "Syntax error, found 'd' token directly after 'd' token"
      | [] => .error "Unexpected end of input, expecting token after 'd' token"
      | _ =>
        match parseExprF fuel rest 0 with
        | .error e => .error e
        | .ok (e, r) => .ok (Expr.unary e Operator.die, r)
    | Token.minus :: rest =>
      match rest with
      | [] => .error "Unexpected end of input, expecting token after '-' token"
      | _ =>
        match parsePrimaryF fuel rest with
        | .error e => .error e
        | .ok (e, r) => .ok (Expr.unary e Operator.minus, r)
    | Token.plus :: rest =>
      match rest with
      | [] => .error "Unexpected end of input, expecting token after '+' token"
      | _ =>
        match parsePrimaryF fuel rest with
        | .error e => .error e
        | .ok (e, r) => .ok (Expr.unary e Operator.plus, r)
    | _ => .error "Unexpected end of input"

end

/-- The token-level part of `parse` (`parser.rs`): run `parse_expr` at
precedence `0` on a token list and return the expression, discarding any
remaining tokens exactly as the source does.  The fuel bound `8 * n + 8`
dominates the recursion depth, which is at most five frames per consumed
token plus the four initial precedence descents. -/
def parseTokens (tokens : List Token) : Except String Expr :=
  match parseExprF (8 * tokens.length + 8) tokens 0 with
  | .error e => .error e
  | .ok (e, _) => .ok e

/-- `parse` (`parser.rs`): lex the input, then parse the token stream,
propagating any lexer error verbatim. -/
def parse (s : String) : Except String Expr :=
  match lex s with
  | .error e => .error e
  | .ok tokens => parseTokens tokens

/-- Rounding of `f64::round` ("round half away from zero"), on exact
rationals.  On every finite `f64` this equals the mathematical rounding: for
`|x| < 2^52` the rounded integer is below `2^52 + 1` and hence exactly
representable, and for `|x| ≥ 2^52` the argument is already an integer and
`round` is the identity. -/
def roundHalfAway (q : ℚ) : ℤ :=
  if q < 0 then -⌊-q + 1 / 2⌋ else ⌊q + 1 / 2⌋

/-- Round a rational to the nearest integer, ties to even — the rounding
applied by IEEE-754 binary64 operations once the value is scaled to units of
the last significand bit. -/
def roundHalfEven (q : ℚ) : ℤ :=
  if q - ⌊q⌋ < 1 / 2 then ⌊q⌋
  else if 1 / 2 < q - ⌊q⌋ then ⌊q⌋ + 1
  else if ⌊q⌋ % 2 = 0 then ⌊q⌋ else ⌊q⌋ + 1

/-- IEEE-754 binary64 rounding (round to nearest, ties to even, 53-bit
significand) of a real value, as performed by every `as f64` conversion and
every `f64` arithmetic operation: scale the value so that its leading bit
sits at position 52, round to an integer significand, and scale back.  The
exponent is unbounded (no overflow to infinity, no subnormal precision
loss); see the module header for why neither is reachable in this
program. -/
def fl (q : ℚ) : ℚ :=
  if q = 0 then 0
  else (roundHalfEven (q * 2 ^ (52 - Int.log 2 |q|)) : ℚ) * 2 ^ (Int.log 2 |q| - 52)

/-- Truncation toward zero, the integer-directed part of Rust's `as isize`
cast from `f64`. -/
def rtrunc (q : ℚ) : ℤ :=
  if q < 0 then -⌊-q⌋ else ⌊q⌋

/-- Rust's saturating `f64 as isize` cast on a 64-bit target: truncate toward
zero and clamp to the `isize` range (the NaN-to-zero case is unreachable
here: no operation in `calcRoll` can produce a NaN from finite inputs). -/
def satCast (q : ℚ) : ℤ :=
  min (max (rtrunc q) (-(2 ^ 63))) (2 ^ 63 - 1)

/-- The `usize as isize` cast of `eval`'s `NumericLiteral` arm
(`droll/src/interpreter.rs`) on a 64-bit target: reinterpret the low 64 bits
in two's complement. -/
def usizeToIsize (n : Nat) : ℤ :=
  if n % 2 ^ 64 < 2 ^ 63 then ((n % 2 ^ 64 : Nat) : ℤ)
  else ((n % 2 ^ 64 : Nat) : ℤ) - 2 ^ 64

/-- `calc_roll` (`interpreter.rs`):
`(amount as f64 * (prng() * sides as f64).round().max(1.0)) as isize`, with
the single drawn sample passed in as `prng`.  Reading the Rust inside out:
`sides as f64` is `fl sides`; the `f64` product with the sample is
`fl (prng * fl sides)`; `.round()` is exact on any finite `f64`
(see `roundHalfAway`); `.max(1.0)` is exact; `amount as f64` is `fl amount`;
the outer `f64` product rounds again; and `as isize` is the saturating
truncation `satCast`. -/
def calcRoll (prng : ℚ) (amount sides : ℤ) : ℤ :=
  satCast (fl (fl (amount : ℚ) *
    max ((roundHalfAway (fl (prng * fl (sides : ℚ))) : ℤ) : ℚ) 1))

/-- `eval` (`interpreter.rs`).  The Rust evaluator closes over a zero-argument
random source `fn() -> f64` and calls it once per Die node; the embedding
makes the side effect explicit by threading an index into a stream
`src : ℕ → ℚ` of successive samples, returned alongside the value.  Operand
order follows the source: left operand, then right operand, then (for Die)
the sample draw inside `calc_roll`. -/
def evalS (src : Nat → ℚ) : Expr → Nat → ℤ × Nat
  | Expr.numericLiteral n, k => (usizeToIsize n, k)
  | Expr.binary lhs rhs op, k =>
    let l := evalS src lhs k
    let r := evalS src rhs l.2
    match op with
    | .die => (calcRoll (src r.2) l.1 r.1, r.2 + 1)
    | .plus => (l.1 + r.1, r.2)
    | .minus => (l.1 - r.1, r.2)
  | Expr.unary rhs op, k =>
    let r := evalS src rhs k
    match op with
    | .die => (calcRoll (src r.2) 1 r.1, r.2 + 1)
    | .plus => (r.1, r.2)
    | .minus => (-r.1, r.2)

/-- Big-step evaluation relation corresponding to `eval`
(`interpreter.rs`): `EvalR src e k v k'` states that evaluating `e` with the
sample stream `src`, the next unconsumed sample being `src k`, produces the
value `v` leaving `k'` as the next unconsumed sample index. -/
inductive EvalR (src : Nat → ℚ) : Expr → Nat → ℤ → Nat → Prop where
  | numericLiteral (n k : Nat) :
      EvalR src (Expr.numericLiteral n) k (usizeToIsize n) k
  | binaryDie {lhs rhs : Expr} {k k1 k2 : Nat} {l r : ℤ} :
      EvalR src lhs k l k1 → EvalR src rhs k1 r k2 →
      EvalR src (Expr.binary lhs rhs Operator.die) k (calcRoll (src k2) l r) (k2 + 1)
  | binaryPlus {lhs rhs : Expr} {k k1 k2 : Nat} {l r : ℤ} :
      EvalR src lhs k l k1 → EvalR src rhs k1 r k2 →
      EvalR src (Expr.binary lhs rhs Operator.plus) k (l + r) k2
  | binaryMinus {lhs rhs : Expr} {k k1 k2 : Nat} {l r : ℤ} :
      EvalR src lhs k l k1 → EvalR src rhs k1 r k2 →
      EvalR src (Expr.binary lhs rhs Operator.minus) k (l - r) k2
  | unaryDie {rhs : Expr} {k k1 : Nat} {r : ℤ} :
      EvalR src rhs k r k1 →
      EvalR src (Expr.unary rhs Operator.die) k (calcRoll (src k1) 1 r) (k1 + 1)
  | unaryPlus {rhs : Expr} {k k1 : Nat} {r : ℤ} :
      EvalR src rhs k r k1 →
      EvalR src (Expr.unary rhs Operator.plus) k r k1
  | unaryMinus {rhs : Expr} {k k1 : Nat} {r : ℤ} :
      EvalR src rhs k r k1 →
      EvalR src (Expr.unary rhs Operator.minus) k (-r) k1

/-- Token image of an operator, inverse of `tokenToOperator` on the three
operator tokens; used to state parser properties uniformly over `+`/`-`. -/
def opToken : Operator → Token
  | .plus => Token.plus
  | .minus => Token.minus
  | .die => Token.die

/-- The character set that a successful scan can consume: the documented set
extended by the exploratory characters the committed lexer also accepts. -/
def acceptedChar (c : Char) : Prop :=
  ('0' ≤ c ∧ c ≤ '9') ∨ c = '+' ∨ c = '-' ∨ c = '*' ∨ c = '/' ∨
    c = 'd' ∨ c = 'F' ∨ c = '%'

instance (c : Char) : Decidable (acceptedChar c) := by
  unfold acceptedChar
  infer_instance

end Droll

deriving instance DecidableEq for Except

namespace Droll

/-! Helper lemmas about the embedding, shared by the claim theorems below. -/

lemma mapOk {α β : Type} {f : α → β} {e : Except String α} {b : β}
    (h : Except.map f e = Except.ok b) : ∃ a, e = Except.ok a ∧ f a = b := by
  cases e with
  | error e => simp [Except.map] at h
  | ok a => exact ⟨a, rfl, by simpa [Except.map] using h⟩

lemma mapPairOk {e : Except String Token} {t : Token} {rs rest : List Char}
    (h : Except.map (fun tk => (tk, rs)) e = Except.ok (t, rest)) :
    e = Except.ok t ∧ rs = rest := by
  cases e with
  | error e => simp [Except.map] at h
  | ok tok =>
    simp [Except.map] at h
    exact ⟨by rw [h.1], h.2⟩

lemma lexLoop_cons {c : Char} {cs rest : List Char} {t : Token} (fuel : Nat)
    (h : parseTok c (c :: cs) = Except.ok (t, rest)) :
    lexLoop (fuel + 1) (c :: cs) = (lexLoop fuel rest).map (fun ts => t :: ts) := by
  simp only [lexLoop, h]
  cases lexLoop fuel rest <;> rfl

lemma lexLoop_cons_error {c : Char} {cs : List Char} {e : String} (fuel : Nat)
    (h : parseTok c (c :: cs) = Except.error e) :
    lexLoop (fuel + 1) (c :: cs) = Except.error e := by
  simp only [lexLoop, h]

lemma isDigit_accepted {c : Char} (h : c.isDigit = true) : acceptedChar c := by
  unfold acceptedChar
  left
  simpa [Char.isDigit, Bool.and_eq_true, decide_eq_true_eq] using h

lemma parseIntegerToken_chars {cs : List Char} {t : Token} {rest : List Char}
    (h : parseIntegerToken cs = Except.ok (t, rest)) :
    ∀ x ∈ cs, acceptedChar x ∨ x ∈ rest := by
  intro x hx
  simp only [parseIntegerToken] at h
  split at h
  · exact absurd h (by simp)
  · split at h
    · obtain ⟨h1, h2⟩ := by simpa using h
      have hsplit : cs.takeWhile (fun c => c.isDigit) ++ cs.dropWhile (fun c => c.isDigit) = cs :=
        List.takeWhile_append_dropWhile (fun c => c.isDigit) cs
      rw [← hsplit] at hx
      rcases List.mem_append.mp hx with hm | hm
      · exact Or.inl (isDigit_accepted (List.mem_takeWhile_imp hm))
      · exact Or.inr (h2 ▸ hm)
    · exact absurd h (by simp)

lemma parseDieToken_chars {cs : List Char} {t : Token} {rest : List Char}
    (h : parseDieToken cs = Except.ok (t, rest)) :
    ∀ x ∈ cs, acceptedChar x ∨ x ∈ rest := by
  intro x hx
  rcases cs with _ | ⟨c0, _ | ⟨c1, r2⟩⟩
  · simp [parseDieToken] at h
  · simp only [parseDieToken] at h
    split_ifs at h with hd hF
    obtain ⟨-, hr⟩ := mapPairOk h
    exact Or.inr (hr ▸ hx)
  · simp only [parseDieToken] at h
    split_ifs at h with hd hF1 hF0
    · obtain ⟨-, hr⟩ := mapPairOk h
      subst hd
      rcases List.mem_cons.mp hx with hx0 | hx1
      · subst hx0; exact Or.inl (by decide)
      · rcases List.mem_cons.mp hx1 with hx1 | hx2
        · subst hx1
          rcases hF1 with h' | h'
          · subst h'; exact Or.inl (by decide)
          · subst h'; exact Or.inl (by decide)
        · exact Or.inr (hr ▸ hx2)
    · obtain ⟨-, hr⟩ := mapPairOk h
      subst hd
      rcases List.mem_cons.mp hx with hx0 | hx1
      · subst hx0; exact Or.inl (by decide)
      · exact Or.inr (hr ▸ hx1)
    · obtain ⟨-, hr⟩ := mapPairOk h
      rcases List.mem_cons.mp hx with hx0 | hx1
      · subst hx0
        rcases hF0 with h' | h'
        · subst h'; exact Or.inl (by decide)
        · subst h'; exact Or.inl (by decide)
      · exact Or.inr (hr ▸ hx1)
    · obtain ⟨-, hr⟩ := mapPairOk h
      exact Or.inr (hr ▸ hx)

lemma parseTok_chars {c : Char} {cs : List Char} {t : Token} {rest : List Char}
    (h : parseTok c (c :: cs) = Except.ok (t, rest)) :
    ∀ x ∈ c :: cs, acceptedChar x ∨ x ∈ rest := by
  unfold parseTok at h
  split_ifs at h with h1 h2
  · exact parseIntegerToken_chars h
  · exact parseDieToken_chars h
  · intro x hx
    unfold parseSingleToken at h
    obtain ⟨hcls, hr⟩ := mapPairOk h
    have hcacc : acceptedChar c := by
      split_ifs at hcls with ha hb hm hsl
      · subst ha; decide
      · subst hb; decide
      · subst hm; decide
      · subst hsl; decide
    rcases List.mem_cons.mp hx with hx0 | hx1
    · exact Or.inl (hx0 ▸ hcacc)
    · exact Or.inr (hr ▸ hx1)

end Droll

namespace Droll

/-- C1: the claim asserts that prefix `d` binds tightest, so that
`parse "d3-2"` is `(- (d 3) 2)`.  The committed parser instead has
`parse_primary` parse the operand of a unary `d` with `parse_expr(tokens, 0)`,
the whole remaining expression, so `parse "d3-2"` is `(d (- 3 2))`. -/
theorem c1_counterexample :
    parse "d3-2" ≠
      Except.ok (Expr.binary (Expr.unary (Expr.numericLiteral 3) Operator.die)
        (Expr.numericLiteral 2) Operator.minus) := by
  decide

/-- C1 (amended): a unary roll `d` captures the entire following expression,
not only the next primary: for every input of the form `dN op M` with `op`
in `{+,-}`, the roll applies to the whole `N op M`, and in particular
`parse "d3-2"` yields `Unary(Binary(3, 2, Minus), Die)`, rendered
`(d (- 3 2))`. -/
theorem c1_unary_die_captures_following_expr :
    (∀ (n m : Nat) (o : Operator), o ≠ Operator.die →
      parseTokens [Token.die, Token.integer n, opToken o, Token.integer m] =
        Except.ok (Expr.unary
          (Expr.binary (Expr.numericLiteral n) (Expr.numericLiteral m) o) Operator.die)) ∧
    parse "d3-2" =
      Except.ok (Expr.unary
        (Expr.binary (Expr.numericLiteral 3) (Expr.numericLiteral 2) Operator.minus)
        Operator.die) := by
  constructor
  · intro n m o ho
    cases o with
    | die => exact absurd rfl ho
    | plus => rfl
    | minus => rfl
  · decide

/-- C1 witness: the amended statement instantiated at `d3-2`'s token list. -/
theorem c1_witness :
    Operator.minus ≠ Operator.die ∧
    parseTokens [Token.die, Token.integer 3, opToken Operator.minus, Token.integer 2] =
      Except.ok (Expr.unary
        (Expr.binary (Expr.numericLiteral 3) (Expr.numericLiteral 2) Operator.minus)
        Operator.die) :=
  ⟨by decide, c1_unary_die_captures_following_expr.1 3 2 Operator.minus (by decide)⟩

/-- C2: the claim asserts left associativity for equal-precedence chains, with
`parse "1-2+3"` grouping as `(1-2)+3` and `parse "2d3d4"` as `(2d3)d4`.  The
committed parser parses the right-hand side of an infix operator at the same
precedence level (`parse_expr(tokens, current_precedence)`), so it groups to
the right. -/
theorem c2_counterexample :
    parse "1-2+3" ≠
      Except.ok (Expr.binary
        (Expr.binary (Expr.numericLiteral 1) (Expr.numericLiteral 2) Operator.minus)
        (Expr.numericLiteral 3) Operator.plus) ∧
    parse "2d3d4" ≠
      Except.ok (Expr.binary
        (Expr.binary (Expr.numericLiteral 2) (Expr.numericLiteral 3) Operator.die)
        (Expr.numericLiteral 4) Operator.die) := by
  exact ⟨by decide, by decide⟩

/-- C2 (amended): equal-precedence infix chains group to the right: for every
chain `a op1 b op2 c` with `op1`, `op2` both in `{+,-}` or both `d`, the
parse tree is `Binary(a, Binary(b, c, op2), op1)`; in particular
`parse "1-2+3"` yields `Binary(1, Binary(2, 3, Plus), Minus)` and
`parse "2d3d4"` yields `Binary(2, Binary(3, 4, Die), Die)`. -/
theorem c2_equal_precedence_groups_right :
    (∀ (a b c : Nat) (o1 o2 : Operator), o1 ≠ Operator.die → o2 ≠ Operator.die →
      parseTokens [Token.integer a, opToken o1, Token.integer b, opToken o2, Token.integer c] =
        Except.ok (Expr.binary (Expr.numericLiteral a)
          (Expr.binary (Expr.numericLiteral b) (Expr.numericLiteral c) o2) o1)) ∧
    (∀ (a b c : Nat),
      parseTokens [Token.integer a, Token.die, Token.integer b, Token.die, Token.integer c] =
        Except.ok (Expr.binary (Expr.numericLiteral a)
          (Expr.binary (Expr.numericLiteral b) (Expr.numericLiteral c) Operator.die)
          Operator.die)) ∧
    parse "1-2+3" =
      Except.ok (Expr.binary (Expr.numericLiteral 1)
        (Expr.binary (Expr.numericLiteral 2) (Expr.numericLiteral 3) Operator.plus)
        Operator.minus) ∧
    parse "2d3d4" =
      Except.ok (Expr.binary (Expr.numericLiteral 2)
        (Expr.binary (Expr.numericLiteral 3) (Expr.numericLiteral 4) Operator.die)
        Operator.die) := by
  refine ⟨?_, ?_, by decide, by decide⟩
  · intro a b c o1 o2 h1 h2
    cases o1 with
    | die => exact absurd rfl h1
    | plus =>
      cases o2 with
      | die => exact absurd rfl h2
      | plus => rfl
      | minus => rfl
    | minus =>
      cases o2 with
      | die => exact absurd rfl h2
      | plus => rfl
      | minus => rfl
  · intro a b c
    rfl

/-- C2 witness: the amended statement instantiated at `1-2+3`'s token list. -/
theorem c2_witness :
    Operator.minus ≠ Operator.die ∧ Operator.plus ≠ Operator.die ∧
    parseTokens [Token.integer 1, opToken Operator.minus, Token.integer 2,
        opToken Operator.plus, Token.integer 3] =
      Except.ok (Expr.binary (Expr.numericLiteral 1)
        (Expr.binary (Expr.numericLiteral 2) (Expr.numericLiteral 3) Operator.plus)
        Operator.minus) :=
  ⟨by decide, by decide,
    c2_equal_precedence_groups_right.1 1 2 3 Operator.minus Operator.plus
      (by decide) (by decide)⟩

/-- C7: the claim asserts that `parse "d"` fails with the parser's
end-of-input-after-d error and that parsing `"dd6"` fails with the parser's
double-d syntax error.  Both inputs are in fact rejected earlier, by the
lexer, so neither of those two parser messages is produced. -/
theorem c7_counterexample :
    parse "d" ≠ Except.error "Unexpected end of input, expecting token after 'd' token" ∧
    parse "dd6" ≠ Except.error "Syntax error, found 'd' token directly after 'd' token" := by
  exact ⟨by decide, by decide⟩

/-- C7 (amended): `parse "d"` and `parse "dd6"` both fail and produce no
Expression — but with the lexer's errors ("Unexpected end of input stream"
and "Unexpected character: d" respectively, because `parse_die_token`
rejects a `d` at end of input, and a `d` not followed by `F`, `%` or a digit
`1`-`9`, before the parser ever runs). -/
theorem c7_dangling_and_double_die_rejected :
    parse "d" = Except.error "Unexpected end of input stream" ∧
    parse "dd6" = Except.error "Unexpected character: d" := by
  exact ⟨by decide, by decide⟩

/-- C5: the claim asserts that tokenizing `"+-1234567890d"` succeeds with
`[Plus, Minus, Integer(1234567890), Die]`.  The committed lexer rejects a
trailing `d`: `parse_die_token` consumes the `d`, finds the stream exhausted
and fails with "Unexpected end of input stream". -/
theorem c5_counterexample :
    lex "+-1234567890d" ≠
      Except.ok [Token.plus, Token.minus, Token.integer 1234567890, Token.die] := by
  decide

/-- C5 (amended): tokenizing `"+-1234567890"` yields
`[Plus, Minus, Integer(1234567890)]`; a `d` followed by a digit `1`-`9` is
lexed as a single Die token with the digits left in the stream, to be lexed
separately as an Integer token; but a `d` at the end of the input is a lexer
error "Unexpected end of input stream", so `"+-1234567890d"` fails. -/
theorem c5_die_token_lexing :
    (∀ (c : Char) (rest : List Char) (n : Nat),
        c ∈ ['1', '2', '3', '4', '5', '6', '7', '8', '9'] →
        lexLoop (n + 1) ('d' :: c :: rest) =
          (lexLoop n (c :: rest)).map (fun ts => Token.die :: ts)) ∧
    lex "+-1234567890" = Except.ok [Token.plus, Token.minus, Token.integer 1234567890] ∧
    lex "+-1234567890d" = Except.error "Unexpected end of input stream" := by
  refine ⟨?_, by decide, by decide⟩
  intro c rest n hc
  apply lexLoop_cons
  fin_cases hc <;> rfl

/-- C5 witness: the general part instantiated at the character list
`['d', '3']`. -/
theorem c5_witness :
    '3' ∈ ['1', '2', '3', '4', '5', '6', '7', '8', '9'] ∧
    lexLoop 2 ['d', '3'] = (lexLoop 1 ['3']).map (fun ts => Token.die :: ts) :=
  ⟨by decide, c5_die_token_lexing.1 '3' [] 1 (by decide)⟩

/-- C9: an integer token may begin only with a digit `1`-`9`: whenever the
scan reaches a `'0'` at a token boundary the lexer fails with
"Unexpected character: 0" (the dispatching `parse` only routes `'1'`-`'9'`
to `parse_integer_token`, and `parse_single_token` rejects `'0'`), while a
`'0'` inside a digit run that began with `1`-`9` is accepted. -/
theorem c9_zero_leading_integer_rejected :
    (∀ (n : Nat) (rest : List Char),
        lexLoop (n + 1) ('0' :: rest) =
          Except.error ("Unexpected character: " ++ Char.toString '0')) ∧
    lex "0" = Except.error "Unexpected character: 0" ∧
    lex "0d6" = Except.error "Unexpected character: 0" ∧
    lex "1+0" = Except.error "Unexpected character: 0" ∧
    lex "10" = Except.ok [Token.integer 10] := by
  refine ⟨?_, by decide, by decide, by decide, by decide⟩
  intro n rest
  rfl

/-- C6: the claim asserts that the scan fails on any character outside
`{0-9, +, -, d}` and hence that tokenizing succeeds only when every input
character lies in that set.  The committed lexer also accepts `*` and `/`
(as `Asterisk` and `Slash` tokens), so `lex "*"` succeeds even though `*` is
outside the documented set. -/
theorem c6_counterexample :
    lex "*" = Except.ok [Token.asterisk] ∧
    ¬ ('0' ≤ '*' ∧ '*' ≤ '9') ∧ '*' ≠ '+' ∧ '*' ≠ '-' ∧ '*' ≠ 'd' := by
  exact ⟨by decide, by decide, by decide, by decide, by decide⟩

/-- C6 (amended): the scan fails immediately — aborting with no partial token
sequence — naming the offending character, as soon as it reaches a character
outside the set `{0-9, +, -, *, /, d}` at a token boundary (whitespace
included among the rejected characters); and a successful tokenization
implies every character of the input lies in the accepted alphabet
`{0-9, +, -, *, /, d, F, %}` (`F` and `%` can only be consumed directly
after a `d`). -/
theorem c6_unexpected_character_behavior :
    (∀ (c : Char) (rest : List Char) (n : Nat),
        ¬ ('0' ≤ c ∧ c ≤ '9') → c ≠ '+' → c ≠ '-' → c ≠ '*' → c ≠ '/' → c ≠ 'd' →
        lexLoop (n + 1) (c :: rest) =
          Except.error ("Unexpected character: " ++ c.toString)) ∧
    (∀ (fuel : Nat) (cs : List Char) (ts : List Token),
        lexLoop fuel cs = Except.ok ts → ∀ c ∈ cs, acceptedChar c) := by
  constructor
  · intro c rest n h0 h1 h2 h3 h4 h5
    have hnd : ¬ ('1' ≤ c ∧ c ≤ '9') := fun hcc => h0 ⟨le_trans (by decide) hcc.1, hcc.2⟩
    simp [lexLoop, parseTok, hnd, h5, parseSingleToken, h1, h2, h3, h4, Except.map]
  · intro fuel
    induction fuel with
    | zero =>
      intro cs ts h c hc
      cases cs with
      | nil => exact absurd hc (List.not_mem_nil c)
      | cons c0 r => simp [lexLoop] at h
    | succ m ih =>
      intro cs ts h c hc
      cases cs with
      | nil => exact absurd hc (List.not_mem_nil c)
      | cons c0 r =>
        cases hpt : parseTok c0 (c0 :: r) with
        | error e =>
          rw [lexLoop_cons_error m hpt] at h
          exact absurd h (by simp)
        | ok pr =>
          obtain ⟨t, rest⟩ := pr
          rw [lexLoop_cons m hpt] at h
          obtain ⟨ts2, hll, -⟩ := mapOk h
          rcases parseTok_chars hpt c hc with ha | hr
          · exact ha
          · exact ih rest ts2 hll c hr

/-- C6 witness: the immediate-rejection part instantiated at a whitespace
character. -/
theorem c6_witness :
    (¬ ('0' ≤ ' ' ∧ ' ' ≤ '9')) ∧
    lexLoop 1 [' '] = Except.error ("Unexpected character: " ++ Char.toString ' ') :=
  ⟨by decide, c6_unexpected_character_behavior.1 ' ' [] 0 (by decide) (by decide)
    (by decide) (by decide) (by decide) (by decide)⟩

end Droll

namespace Droll

/-! Helper lemmas about the `f64` model (`roundHalfEven`, `fl`, `satCast`),
used by the interpreter claims. -/

lemma roundHalfEven_intCast (n : ℤ) : roundHalfEven (n : ℚ) = n := by
  unfold roundHalfEven
  rw [Int.floor_intCast, sub_self]
  norm_num

lemma roundHalfEven_int_add_half {n : ℤ} (h : n % 2 = 0) :
    roundHalfEven ((n : ℚ) + 1 / 2) = n := by
  have hf : ⌊(n : ℚ) + 1 / 2⌋ = n := by
    rw [Int.floor_eq_iff]
    constructor <;> linarith
  unfold roundHalfEven
  rw [hf]
  have he : ((n : ℚ) + 1 / 2) - n = 1 / 2 := by ring
  rw [he, if_neg (by norm_num), if_neg (by norm_num), if_pos h]

lemma roundHalfAway_intCast (n : ℤ) : roundHalfAway (n : ℚ) = n := by
  unfold roundHalfAway
  by_cases hn : (n : ℚ) < 0
  · rw [if_pos hn, ← Int.cast_neg]
    have hf : ⌊((-n : ℤ) : ℚ) + 1 / 2⌋ = -n := by
      rw [Int.floor_eq_iff]
      constructor <;> linarith
    rw [hf, neg_neg]
  · rw [if_neg hn]
    have hf : ⌊(n : ℚ) + 1 / 2⌋ = n := by
      rw [Int.floor_eq_iff]
      constructor <;> linarith
    rw [hf]

lemma fl_intCast {n : ℤ} (h : |n| ≤ 2 ^ 53) : fl (n : ℚ) = n := by
  rcases eq_or_ne n 0 with rfl | hn
  · simp [fl]
  · have hq0 : ((n : ℚ)) ≠ 0 := Int.cast_ne_zero.mpr hn
    have habs : (0 : ℚ) < |(n : ℚ)| := abs_pos.mpr hq0
    have hlt : |(n : ℚ)| < ((2 : ℕ) : ℚ) ^ (54 : ℤ) := by
      rw [← Int.cast_abs, show ((54 : ℤ)) = ((54 : ℕ) : ℤ) from rfl, zpow_natCast]
      have : ((|n| : ℤ) : ℚ) ≤ ((2 ^ 53 : ℤ) : ℚ) := by exact_mod_cast h
      calc ((|n| : ℤ) : ℚ) ≤ ((2 ^ 53 : ℤ) : ℚ) := this
      _ < ((2 : ℕ) : ℚ) ^ (54 : ℕ) := by push_cast; norm_num
    have he54 : Int.log 2 |(n : ℚ)| < 54 :=
      (Int.lt_zpow_iff_log_lt (by norm_num) habs).mp hlt
    unfold fl
    rw [if_neg hq0]
    by_cases h52 : Int.log 2 |(n : ℚ)| ≤ 52
    · obtain ⟨k, hk⟩ : ∃ k : ℕ, (52 : ℤ) - Int.log 2 |(n : ℚ)| = (k : ℤ) :=
        ⟨(52 - Int.log 2 |(n : ℚ)|).toNat, (Int.toNat_of_nonneg (by omega)).symm⟩
      have hpk : (n : ℚ) * 2 ^ ((52 : ℤ) - Int.log 2 |(n : ℚ)|) = ((n * 2 ^ k : ℤ) : ℚ) := by
        rw [hk, zpow_natCast]
        push_cast
        ring
      have hek : Int.log 2 |(n : ℚ)| - 52 = -(k : ℤ) := by omega
      rw [hpk, roundHalfEven_intCast, hek, zpow_neg, zpow_natCast]
      push_cast
      rw [mul_assoc, mul_inv_cancel₀ (by positivity), mul_one]
    · have he53 : Int.log 2 |(n : ℚ)| = 53 := by omega
      have hge : ((2 : ℕ) : ℚ) ^ (53 : ℤ) ≤ |(n : ℚ)| :=
        (Int.zpow_le_iff_le_log (by norm_num) habs).mpr (by omega)
      have habs53 : |n| = 2 ^ 53 := by
        refine le_antisymm h ?_
        have : ((2 : ℕ) : ℚ) ^ (53 : ℕ) ≤ ((|n| : ℤ) : ℚ) := by
          rw [Int.cast_abs]
          calc ((2 : ℕ) : ℚ) ^ (53 : ℕ) = ((2 : ℕ) : ℚ) ^ (53 : ℤ) := by
                rw [show ((53 : ℤ)) = ((53 : ℕ) : ℤ) from rfl, zpow_natCast]
          _ ≤ |(n : ℚ)| := hge
        have h2 : ((2 ^ 53 : ℤ) : ℚ) ≤ ((|n| : ℤ) : ℚ) := by push_cast at this ⊢; linarith
        exact_mod_cast h2
      rw [he53]
      rcases (abs_eq (by positivity : (0 : ℤ) ≤ 2 ^ 53)).mp habs53 with rfl | rfl
      · rw [show ((52 : ℤ) - 53) = -1 from by norm_num, zpow_neg_one,
          show ((53 : ℤ) - 52) = 1 from by norm_num, zpow_one]
        rw [show (((2 ^ 53 : ℤ) : ℚ)) * (2 : ℚ)⁻¹ = ((2 ^ 52 : ℤ) : ℚ) from by push_cast; ring,
          roundHalfEven_intCast]
        push_cast
        ring
      · rw [show ((52 : ℤ) - 53) = -1 from by norm_num, zpow_neg_one,
          show ((53 : ℤ) - 52) = 1 from by norm_num, zpow_one]
        rw [show (((-(2 ^ 53) : ℤ) : ℚ)) * (2 : ℚ)⁻¹ = ((-(2 ^ 52) : ℤ) : ℚ) from by
            push_cast; ring,
          roundHalfEven_intCast]
        push_cast
        ring

lemma satCast_intCast {n : ℤ} (h : |n| < 2 ^ 63) : satCast (n : ℚ) = n := by
  have e63 : (2 : ℤ) ^ 63 = 9223372036854775808 := by norm_num
  rw [e63] at h
  have h1 := abs_lt.mp h
  unfold satCast rtrunc
  rw [e63]
  by_cases hn : (n : ℚ) < 0
  · rw [if_pos hn, ← Int.cast_neg, Int.floor_intCast, neg_neg,
      max_eq_left (by omega), min_eq_left (by omega)]
  · rw [if_neg hn, Int.floor_intCast,
      max_eq_left (by omega), min_eq_left (by omega)]

lemma calcRoll_eq_of_le {r : ℚ} {l s : ℤ} (hl : 0 ≤ l) (hs1 : 1 ≤ s) (hs2 : s ≤ 2 ^ 53)
    (hb : l * max (roundHalfAway (fl (r * (s : ℚ)))) 1 ≤ 2 ^ 53) :
    calcRoll r l s = l * max (roundHalfAway (fl (r * (s : ℚ)))) 1 := by
  have hfs : fl ((s : ℚ)) = ((s : ℚ)) :=
    fl_intCast (by rw [abs_of_nonneg (by omega : (0 : ℤ) ≤ s)]; exact hs2)
  unfold calcRoll
  rw [hfs]
  have hm1 : (1 : ℤ) ≤ max (roundHalfAway (fl (r * (s : ℚ)))) 1 := le_max_right _ _
  have hlm0 : 0 ≤ l * max (roundHalfAway (fl (r * (s : ℚ)))) 1 :=
    mul_nonneg hl (by omega)
  have hl53 : |l| ≤ 2 ^ 53 := by
    rw [abs_of_nonneg hl]
    calc l = l * 1 := (mul_one l).symm
    _ ≤ l * max (roundHalfAway (fl (r * (s : ℚ)))) 1 := mul_le_mul_of_nonneg_left hm1 hl
    _ ≤ 2 ^ 53 := hb
  have hfl : fl ((l : ℚ)) = ((l : ℚ)) := fl_intCast hl53
  rw [hfl]
  have hcast : (l : ℚ) * max ((roundHalfAway (fl (r * (s : ℚ))) : ℤ) : ℚ) 1 =
      ((l * max (roundHalfAway (fl (r * (s : ℚ)))) 1 : ℤ) : ℚ) := by
    push_cast [Int.cast_max]
    ring
  rw [hcast]
  have hlmb : |l * max (roundHalfAway (fl (r * (s : ℚ)))) 1| ≤ 2 ^ 53 := by
    rw [abs_of_nonneg hlm0]
    exact hb
  rw [fl_intCast hlmb]
  exact satCast_intCast (lt_of_le_of_lt hlmb (by norm_num))

lemma calcRoll_concrete {r : ℚ} {l s m : ℤ} (hm : r * (s : ℚ) = (m : ℚ))
    (hl : 0 ≤ l) (hs1 : 1 ≤ s) (hs2 : s ≤ 2 ^ 53) (hmb : |m| ≤ 2 ^ 53)
    (hb : l * max m 1 ≤ 2 ^ 53) :
    calcRoll r l s = l * max m 1 := by
  have hround : roundHalfAway (fl (r * (s : ℚ))) = m := by
    rw [hm, fl_intCast hmb]
    exact roundHalfAway_intCast m
  have h := calcRoll_eq_of_le hl hs1 hs2 (by rw [hround]; exact hb)
  rw [h, hround]

lemma log_pow53succ : Int.log 2 |(9007199254740993 : ℚ)| = 53 := by
  rw [(by norm_num : |(9007199254740993 : ℚ)| = (9007199254740993 : ℚ))]
  have h0 : (0 : ℚ) < (9007199254740993 : ℚ) := by norm_num
  have h1 : ((2 : ℕ) : ℚ) ^ (53 : ℤ) ≤ (9007199254740993 : ℚ) := by
    rw [show ((53 : ℤ)) = ((53 : ℕ) : ℤ) from rfl, zpow_natCast]
    norm_num
  have h2 : (9007199254740993 : ℚ) < ((2 : ℕ) : ℚ) ^ (54 : ℤ) := by
    rw [show ((54 : ℤ)) = ((54 : ℕ) : ℤ) from rfl, zpow_natCast]
    norm_num
  have hle := (Int.zpow_le_iff_le_log (by norm_num) h0).mp h1
  have hlt := (Int.lt_zpow_iff_log_lt (by norm_num) h0).mp h2
  omega

lemma fl_pow53succ : fl (9007199254740993 : ℚ) = 9007199254740992 := by
  unfold fl
  rw [if_neg (by norm_num), log_pow53succ]
  rw [show ((52 : ℤ) - 53) = -1 from by norm_num, zpow_neg_one,
    show ((53 : ℤ) - 52) = 1 from by norm_num, zpow_one]
  rw [(by push_cast; norm_num : (9007199254740993 : ℚ) * (2 : ℚ)⁻¹ =
    ((4503599627370496 : ℤ) : ℚ) + 1 / 2)]
  rw [roundHalfEven_int_add_half (by norm_num)]
  push_cast
  norm_num

/-- C3: the claim asserts that every Binary(Die) node with operand values
`l ≥ 0`, `s ≥ 1` returns exactly `l * max(1, round(r * s))`, and at least
`l` when `l ≥ 1`.  The program computes this through `f64`: at
`l = 2^53 + 1` (not exactly representable in `f64`), `s = 1` and sample
`r = 0` — all original hypotheses satisfied — `amount as f64` rounds to
`2^53`, so the program returns `9007199254740992` where the claimed formula
gives `9007199254740993`, and the result is below `l`. -/
theorem c3_counterexample :
    (evalS (fun _ => 0)
        (Expr.binary (Expr.numericLiteral 9007199254740993) (Expr.numericLiteral 1)
          Operator.die) 0).1 = 9007199254740992 ∧
    (9007199254740992 : ℤ) ≠
      9007199254740993 * max 1 (roundHalfAway ((0 : ℚ) * ((1 : ℤ) : ℚ))) ∧
    ((0 : ℚ) ≤ 0 ∧ (0 : ℚ) < 1 ∧ (1 : ℤ) ≤ 9007199254740993) ∧
    (9007199254740992 : ℤ) < 9007199254740993 := by
  refine ⟨?_, ?_, by norm_num, by norm_num⟩
  · have hu1 : usizeToIsize 1 = 1 := by norm_num [usizeToIsize]
    have hub : usizeToIsize 9007199254740993 = 9007199254740993 := by
      norm_num [usizeToIsize]
    have hroll : calcRoll 0 9007199254740993 1 = 9007199254740992 := by
      unfold calcRoll
      rw [fl_intCast (show |(1 : ℤ)| ≤ 2 ^ 53 by norm_num)]
      rw [(by norm_num : (0 : ℚ) * ((1 : ℤ) : ℚ) = 0)]
      rw [(by norm_num [fl] : fl (0 : ℚ) = 0)]
      rw [(by norm_num [roundHalfAway] : roundHalfAway (0 : ℚ) = 0)]
      rw [(by norm_num : max (((0 : ℤ) : ℚ)) 1 = 1), mul_one]
      rw [(by push_cast; ring : ((9007199254740993 : ℤ) : ℚ) = (9007199254740993 : ℚ))]
      rw [fl_pow53succ]
      rw [(by push_cast; ring : (9007199254740992 : ℚ) = ((9007199254740992 : ℤ) : ℚ))]
      rw [fl_intCast (show |(9007199254740992 : ℤ)| ≤ 2 ^ 53 by norm_num)]
      exact satCast_intCast (by norm_num)
    simp [evalS, hu1, hub, hroll]
  · rw [(by norm_num : (0 : ℚ) * ((1 : ℤ) : ℚ) = 0)]
    rw [(by norm_num [roundHalfAway] : roundHalfAway (0 : ℚ) = 0)]
    norm_num

/-- C3 (amended): for every `Binary(L, R, Die)` node the evaluator draws
exactly one sample from the random source for that node (not one per rolled
die) — the sample index advances by exactly one beyond what the two operand
evaluations consumed — and returns the `f64` evaluation of
`l * max(1, round(r * s))` (each conversion and multiplication rounded to
nearest, the final cast saturating), which is `calcRoll`; whenever the
operands evaluate to `l ≥ 0` and `1 ≤ s ≤ 2^53` and
`l * max(1, round(fl(r * s))) ≤ 2^53` — so that every `f64` step is exact —
the result equals `l * max(1, round(fl(r * s)))` and is at least `l`
whenever `l ≥ 1`. -/
theorem c3_binary_die_single_sample (src : Nat → ℚ) (L R : Expr) (k : Nat) :
    evalS src (Expr.binary L R Operator.die) k =
      (calcRoll (src (evalS src R (evalS src L k).2).2) (evalS src L k).1
          (evalS src R (evalS src L k).2).1,
        (evalS src R (evalS src L k).2).2 + 1) ∧
    (0 ≤ (evalS src L k).1 → 1 ≤ (evalS src R (evalS src L k).2).1 →
      (evalS src R (evalS src L k).2).1 ≤ 2 ^ 53 →
      (evalS src L k).1 *
          max (roundHalfAway (fl (src (evalS src R (evalS src L k).2).2 *
            ((evalS src R (evalS src L k).2).1 : ℚ)))) 1 ≤ 2 ^ 53 →
      (evalS src (Expr.binary L R Operator.die) k).1 =
        (evalS src L k).1 *
          max 1 (roundHalfAway (fl (src (evalS src R (evalS src L k).2).2 *
            ((evalS src R (evalS src L k).2).1 : ℚ)))) ∧
      (1 ≤ (evalS src L k).1 →
        (evalS src L k).1 ≤ (evalS src (Expr.binary L R Operator.die) k).1)) := by
  have hunf : evalS src (Expr.binary L R Operator.die) k =
      (calcRoll (src (evalS src R (evalS src L k).2).2) (evalS src L k).1
        (evalS src R (evalS src L k).2).1,
       (evalS src R (evalS src L k).2).2 + 1) := rfl
  refine ⟨hunf, ?_⟩
  intro hl hs1 hs2 hb
  have h5 := calcRoll_eq_of_le hl hs1 hs2 hb
  constructor
  · rw [hunf]
    show calcRoll _ _ _ = _
    rw [h5, max_comm]
  · intro hl1
    rw [hunf]
    show (evalS src L k).1 ≤ calcRoll _ _ _
    rw [h5]
    exact le_mul_of_one_le_right (le_trans zero_le_one hl1) (le_max_right _ _)

/-- C3 witness: the theorem instantiated at `2 d 20` with the source fixed at
`1/2`: every hypothesis holds, the roll result is `2 * max(1, round(10)) =
20`, and it is at least `2`. -/
theorem c3_witness :
    (evalS (fun _ => (1 : ℚ) / 2)
        (Expr.binary (Expr.numericLiteral 2) (Expr.numericLiteral 20) Operator.die) 0).1 =
      2 * max 1 (roundHalfAway (fl ((1 : ℚ) / 2 * ((20 : ℤ) : ℚ)))) ∧
    (2 : ℤ) ≤ (evalS (fun _ => (1 : ℚ) / 2)
        (Expr.binary (Expr.numericLiteral 2) (Expr.numericLiteral 20) Operator.die) 0).1 := by
  have hl : (evalS (fun _ => (1 : ℚ) / 2) (Expr.numericLiteral 2) 0).1 = 2 := by
    norm_num [evalS, usizeToIsize]
  have hs : (evalS (fun _ => (1 : ℚ) / 2) (Expr.numericLiteral 20)
      (evalS (fun _ => (1 : ℚ) / 2) (Expr.numericLiteral 2) 0).2).1 = 20 := by
    norm_num [evalS, usizeToIsize]
  have hprod : (1 : ℚ) / 2 * ((20 : ℤ) : ℚ) = ((10 : ℤ) : ℚ) := by norm_num
  have hround : roundHalfAway (fl ((1 : ℚ) / 2 * ((20 : ℤ) : ℚ))) = 10 := by
    rw [hprod, fl_intCast (show |(10 : ℤ)| ≤ 2 ^ 53 by norm_num)]
    exact roundHalfAway_intCast 10
  have h := (c3_binary_die_single_sample (fun _ => (1 : ℚ) / 2) (Expr.numericLiteral 2)
      (Expr.numericLiteral 20) 0).2
      (by rw [hl]; norm_num) (by rw [hs]; norm_num) (by rw [hs]; norm_num)
      (by simp only [hl, hs]; rw [hround]; norm_num)
  obtain ⟨hf, hbound⟩ := h
  constructor
  · simp only [hl, hs] at hf
    exact hf
  · have hb := hbound (by rw [hl]; norm_num)
    rw [hl] at hb
    exact hb

/-- C4: evaluation with a fixed random source is deterministic and
reproducible: `parse "1d20+10"` evaluates to `30` under the constant source
`1.0`, `parse "3d6+10"` to `28` under the constant source `1.0`,
`parse "-1"` to `-1` under every source and sample index, and
`parse "2d20+1d8"` to `24` under the constant source `0.5`. -/
theorem c4_fixed_source_examples :
    (parse "1d20+10").map (fun e => (evalS (fun _ => 1) e 0).1) = Except.ok 30 ∧
    (parse "3d6+10").map (fun e => (evalS (fun _ => 1) e 0).1) = Except.ok 28 ∧
    (∀ (src : Nat → ℚ) (k : Nat),
        (parse "-1").map (fun e => (evalS src e k).1) = Except.ok (-1)) ∧
    (parse "2d20+1d8").map (fun e => (evalS (fun _ => (1 : ℚ) / 2) e 0).1) = Except.ok 24 := by
  refine ⟨?_, ?_, ?_, ?_⟩
  · have hp : parse "1d20+10" = Except.ok (Expr.binary
        (Expr.binary (Expr.numericLiteral 1) (Expr.numericLiteral 20) Operator.die)
        (Expr.numericLiteral 10) Operator.plus) := by decide
    have hroll : calcRoll 1 1 20 = 20 := by
      have h : calcRoll 1 1 20 = 1 * max 20 1 :=
        calcRoll_concrete (by norm_num) (by norm_num) (by norm_num) (by norm_num)
          (by norm_num) (by norm_num)
      rw [h]
      norm_num
    rw [hp]
    simp [Except.map, evalS, usizeToIsize, hroll]
  · have hp : parse "3d6+10" = Except.ok (Expr.binary
        (Expr.binary (Expr.numericLiteral 3) (Expr.numericLiteral 6) Operator.die)
        (Expr.numericLiteral 10) Operator.plus) := by decide
    have hroll : calcRoll 1 3 6 = 18 := by
      have h : calcRoll 1 3 6 = 3 * max 6 1 :=
        calcRoll_concrete (by norm_num) (by norm_num) (by norm_num) (by norm_num)
          (by norm_num) (by norm_num)
      rw [h]
      norm_num
    rw [hp]
    simp [Except.map, evalS, usizeToIsize, hroll]
  · intro src k
    have hp : parse "-1" = Except.ok (Expr.unary (Expr.numericLiteral 1) Operator.minus) := by
      decide
    rw [hp]
    simp [Except.map, evalS, usizeToIsize]
  · have hp : parse "2d20+1d8" = Except.ok (Expr.binary
        (Expr.binary (Expr.numericLiteral 2) (Expr.numericLiteral 20) Operator.die)
        (Expr.binary (Expr.numericLiteral 1) (Expr.numericLiteral 8) Operator.die)
        Operator.plus) := by decide
    have hroll1 : calcRoll ((2 : ℚ)⁻¹) 2 20 = 20 := by
      have h : calcRoll ((2 : ℚ)⁻¹) 2 20 = 2 * max 10 1 :=
        calcRoll_concrete (by norm_num) (by norm_num) (by norm_num) (by norm_num)
          (by norm_num) (by norm_num)
      rw [h]
      norm_num
    have hroll2 : calcRoll ((2 : ℚ)⁻¹) 1 8 = 4 := by
      have h : calcRoll ((2 : ℚ)⁻¹) 1 8 = 1 * max 4 1 :=
        calcRoll_concrete (by norm_num) (by norm_num) (by norm_num) (by norm_num)
          (by norm_num) (by norm_num)
      rw [h]
      norm_num
    rw [hp]
    simp [Except.map, evalS, usizeToIsize, hroll1, hroll2]

/-- C8: the evaluator is total: for every well-formed Expression and every
random source (modelled as a stream of samples) and starting sample index,
the big-step evaluation relation holds of the value and final index that the
structurally recursive evaluator computes — evaluation always terminates
with an integer result and there is no failure path.  Because the evaluator
is a pure function of the source and the tree, the curried evaluator bound
to one source can be applied to independent trees, each evaluation governed
by this same theorem. -/
theorem c8_evaluator_total (src : Nat → ℚ) (e : Expr) (k : Nat) :
    EvalR src e k (evalS src e k).1 (evalS src e k).2 := by
  induction e generalizing k with
  | binary lhs rhs op ihl ihr =>
    cases op with
    | die => exact EvalR.binaryDie (ihl k) (ihr _)
    | plus => exact EvalR.binaryPlus (ihl k) (ihr _)
    | minus => exact EvalR.binaryMinus (ihl k) (ihr _)
  | unary rhs op ih =>
    cases op with
    | die => exact EvalR.unaryDie (ih k)
    | plus => exact EvalR.unaryPlus (ih k)
    | minus => exact EvalR.unaryMinus (ih k)
  | numericLiteral n => exact EvalR.numericLiteral n k

/-- C10: numeric literals wrap rather than error beyond the signed range: for
every `n` with `isize::MAX < n ≤ usize::MAX` (on the 64-bit target,
`2^63 - 1 < n ≤ 2^64 - 1`), evaluating `NumericLiteral(n)` under any source
returns the two's-complement reinterpretation `n - 2^64`, a negative
value. -/
theorem c10_numeric_literal_wraps (n : Nat) (src : Nat → ℚ) (k : Nat)
    (h1 : 2 ^ 63 - 1 < n) (h2 : n ≤ 2 ^ 64 - 1) :
    evalS src (Expr.numericLiteral n) k = ((n : ℤ) - 2 ^ 64, k) ∧ (n : ℤ) - 2 ^ 64 < 0 := by
  have p63 : (2 : ℕ) ^ 63 = 9223372036854775808 := by norm_num
  have p64 : (2 : ℕ) ^ 64 = 18446744073709551616 := by norm_num
  rw [p63] at h1
  rw [p64] at h2
  have hn : n < 2 ^ 64 := by rw [p64]; omega
  have hmod : n % 2 ^ 64 = n := Nat.mod_eq_of_lt hn
  have hge : ¬ (n % 2 ^ 64 < 2 ^ 63) := by rw [hmod, p63]; omega
  constructor
  · show (usizeToIsize n, k) = ((n : ℤ) - 2 ^ 64, k)
    unfold usizeToIsize
    rw [if_neg hge, hmod]
  · have hcast : (n : ℤ) < 18446744073709551616 := by exact_mod_cast p64 ▸ hn
    have h64 : (2 : ℤ) ^ 64 = 18446744073709551616 := by norm_num
    rw [h64]
    omega

/-- C10 witness: `usize::MAX = 2^64 - 1` evaluates to `-1`. -/
theorem c10_witness :
    (2 ^ 63 - 1 < (2 ^ 64 - 1 : Nat)) ∧
    evalS (fun _ => 0) (Expr.numericLiteral (2 ^ 64 - 1)) 0 = (-1, 0) := by
  constructor
  · norm_num
  · have h := (c10_numeric_literal_wraps (2 ^ 64 - 1) (fun _ => 0) 0 (by norm_num) le_rfl).1
    rw [h]
    norm_num

end Droll
